import Mathlib

/-!
Verification development for the HappyCheese client-side data layer.

Shallow embedding of the store module and its derived utilities
(src/store.tsx, src/utils/items.ts, src/utils/orders.ts, src/types.ts).

Modelling conventions:
* JavaScript floating-point numbers are modelled as exact rationals.
  The Number.isFinite guards of the source are vacuous over this model
  and therefore drop out of the corresponding definitions.
* Deposit ("consigne") movement quantities are modelled as integers:
  every write path floors them to whole units before use.
* A JavaScript Map with string keys is modelled as an insertion-ordered
  association list.  The store builds its composite keys by joining the
  client and type identifiers with a separator and splitting them back;
  that encoding is injective exactly when identifiers avoid the
  separator, and the embedding uses the pair of identifiers directly.
* Remote effects are made explicit: a mutating store operation returns
  the list of remote writes it issued together with either an error or
  the updated in-memory state.  A thrown exception is an error result;
  remote writes issued before the throw stay in the returned list.
-/

namespace HappyCheese

/-! ### types.ts -/

inductive QuantityType where
  | pc
  | kg
  | g100
  | g500
deriving DecidableEq, Repr

/-- QUANTITY_INPUT_STEP from types.ts. -/
def QUANTITY_INPUT_STEP : QuantityType → ℚ
  | .pc => 1
  | .kg => 1/10
  | .g100 => 1
  | .g500 => 1/2

/-- QUANTITY_TYPE_LABELS from types.ts. -/
def QUANTITY_TYPE_LABELS : QuantityType → String
  | .pc => "/pc"
  | .kg => "/kg"
  | .g100 => "/100g"
  | .g500 => "/500g"

inductive OrderStatus where
  | nouvelle
  | en_cours
  | livree_pas_payee
  | livree_payee
  | non_livree_payee
deriving DecidableEq, Repr

structure CheeseItem where
  id : String
  name : String
  price : ℚ
  quantityType : QuantityType
  multipleOf : Option ℚ := none
  commentEnabled : Option Bool := none
  step : Option ℚ := none
deriving DecidableEq, Repr

structure OrderEntry where
  id : String
  itemId : String
  itemName : String
  quantityType : QuantityType
  quantity : ℚ
  unitPrice : ℚ
  comment : Option String := none
deriving DecidableEq, Repr

structure Order where
  id : String
  customerName : String
  contact : String
  notes : String
  createdAt : String
  status : OrderStatus
  entries : List OrderEntry
  clientId : Option String := none
deriving DecidableEq, Repr

/-! ### utils/items.ts -/

/-- EPSILON from utils/items.ts. -/
def EPSILON : ℚ := 1/10000

/-- KG_PER_UNIT from utils/items.ts. -/
def KG_PER_UNIT : QuantityType → ℚ
  | .pc => 1
  | .kg => 1
  | .g100 => 1/10
  | .g500 => 1/2

def isPieceQuantity (qt : QuantityType) : Bool :=
  decide (qt = QuantityType.pc)

/-- unitSizeInKg from utils/items.ts.  The source falls back to 1 for a
missing key of the KG_PER_UNIT record; the record is total here. -/
def unitSizeInKg (qt : QuantityType) : ℚ :=
  KG_PER_UNIT qt

/-- toUnitQuantity from utils/items.ts.  The Number.isFinite guard of the
source is vacuous over the rational model. -/
def toUnitQuantity (qt : QuantityType) (displayQuantity : ℚ) : ℚ :=
  if displayQuantity = 0 then 0
  else if isPieceQuantity qt then displayQuantity
  else if unitSizeInKg qt ≤ 0 then displayQuantity
  else displayQuantity / unitSizeInKg qt

/-- toDisplayQuantity from utils/items.ts. -/
def toDisplayQuantity (qt : QuantityType) (unitQuantity : ℚ) : ℚ :=
  if unitQuantity = 0 then 0
  else if isPieceQuantity qt then unitQuantity
  else if unitSizeInKg qt ≤ 0 then unitQuantity
  else unitQuantity * unitSizeInKg qt

/-- JavaScript Math.round: round half toward positive infinity. -/
def jsRound (x : ℚ) : ℤ :=
  ⌊x + 1/2⌋

/-- validateQuantityMultiple from utils/items.ts.  The JavaScript truthiness
test on item.multipleOf treats both an absent value and a zero value as
unconfigured, hence the comparison of the default-0 read with 0. -/
def validateQuantityMultiple (item : CheeseItem) (quantity : ℚ) : Option String :=
  if item.multipleOf.getD 0 = 0 ∨ quantity = 0 then none
  else
    let unitQuantity := toUnitQuantity item.quantityType quantity
    if unitQuantity = 0 then none
    else
      let ratio := unitQuantity / item.multipleOf.getD 0
      if |ratio - (jsRound ratio : ℚ)| < EPSILON then none
      else some ("Quantité multiple de " ++ toString (item.multipleOf.getD 0) ++ " "
        ++ QUANTITY_TYPE_LABELS item.quantityType)

/-- inputStepFor from utils/items.ts. -/
def inputStepFor (item : CheeseItem) : ℚ :=
  item.step.getD (QUANTITY_INPUT_STEP item.quantityType)

/-! ### utils/orders.ts -/

/-- TRANSPORT_FEE_PER_PRODUCT from utils/orders.ts. -/
def TRANSPORT_FEE_PER_PRODUCT : ℚ := 1000

@[ext]
structure OrderFinancials where
  productTotal : ℚ
  transportFee : ℚ
  grandTotal : ℚ
deriving DecidableEq, Repr

/-- computeOrderFinancials from utils/orders.ts. -/
def computeOrderFinancials (order : Order) : OrderFinancials :=
  let productTotal := order.entries.foldl (fun sum entry => sum + entry.quantity * entry.unitPrice) 0
  let transportFee := (order.entries.length : ℚ) * TRANSPORT_FEE_PER_PRODUCT
  { productTotal := productTotal
    transportFee := transportFee
    grandTotal := productTotal + transportFee }

/-! ### store.tsx: row types and row-to-view mapping -/

structure OrderItemRow where
  id : String
  item_id : Option String
  item_name : String
  quantity : ℚ
  quantity_type : QuantityType
  unit_price : ℚ
  comment : Option String := none
deriving DecidableEq, Repr

structure OrderRow where
  id : String
  customer_name : String
  contact : Option String
  notes : Option String
  client_id : Option String
  created_at : String
  status : OrderStatus
  order_items : List OrderItemRow
deriving DecidableEq, Repr

/-- mapOrderEntryFromRow from store.tsx. -/
def mapOrderEntryFromRow (row : OrderItemRow) : OrderEntry :=
  { id := row.id
    itemId := row.item_id.getD row.id
    itemName := row.item_name
    quantityType := row.quantity_type
    quantity := row.quantity
    unitPrice := row.unit_price
    comment := row.comment }

/-- mapOrderFromRow from store.tsx. -/
def mapOrderFromRow (row : OrderRow) : Order :=
  { id := row.id
    customerName := row.customer_name
    contact := row.contact.getD ""
    notes := row.notes.getD ""
    clientId := row.client_id
    createdAt := row.created_at
    status := row.status
    entries := row.order_items.map mapOrderEntryFromRow }

/-- The Omit of CheeseItem without its id, the argument of addItem and
updateItem in store.tsx. -/
structure NewItemPayload where
  name : String
  price : ℚ
  quantityType : QuantityType
  multipleOf : Option ℚ := none
  commentEnabled : Option Bool := none
  step : Option ℚ := none
deriving DecidableEq, Repr

/-- The row shape normalizeItemPayload sends to the items table. -/
structure ItemDbRow where
  name : String
  price : ℚ
  quantity_type : QuantityType
  multiple_of : Option ℚ
  comment_enabled : Bool
  step : ℚ
deriving DecidableEq, Repr

/-- normalizeItemPayload from store.tsx.  Note that multiple_of gets the
nullish-coalesced payload value with no positivity check, while step is
replaced by the per-quantity-type default unless it is a present positive
number. -/
def normalizeItemPayload (payload : NewItemPayload) : ItemDbRow :=
  { name := payload.name
    price := payload.price
    quantity_type := payload.quantityType
    multiple_of := payload.multipleOf
    comment_enabled := payload.commentEnabled.getD false
    step :=
      match payload.step with
      | some s => if s > 0 then s else QUANTITY_INPUT_STEP payload.quantityType
      | none => QUANTITY_INPUT_STEP payload.quantityType }

/-! ### An insertion-ordered association list modelling a JavaScript Map -/

/-- Map.get: the value at the first (hence only) occurrence of the key. -/
def mapGet {α β : Type} [DecidableEq α] : List (α × β) → α → Option β
  | [], _ => none
  | p :: rest, k => if p.1 = k then some p.2 else mapGet rest k

/-- Map.set: replace the value in place if the key is present, otherwise
append the new entry, preserving insertion order. -/
def mapSet {α β : Type} [DecidableEq α] : List (α × β) → α → β → List (α × β)
  | [], k, v => [(k, v)]
  | p :: rest, k, v => if p.1 = k then (k, v) :: rest else p :: mapSet rest k v

/-- Map.delete: drop the entry with the given key. -/
def mapErase {α β : Type} [DecidableEq α] (m : List (α × β)) (k : α) : List (α × β) :=
  m.filter (fun p => decide (p.1 ≠ k))

/-- Each key occurs at most once, as in a JavaScript Map. -/
def nodupKeys {α β : Type} (m : List (α × β)) : Prop :=
  (m.map Prod.fst).Nodup

/-- The JavaScript String.prototype.trim of the source: drop whitespace
from both ends.  Defined structurally over the character list so that it
evaluates inside the kernel (the library trim recurses on byte positions
and does not). -/
def jsTrim (s : String) : String :=
  ⟨((s.data.dropWhile Char.isWhitespace).reverse.dropWhile Char.isWhitespace).reverse⟩

/-! ### store.tsx: deposit ("consigne") ledger -/

structure ConsignTotal where
  clientId : String
  typeId : String
  quantity : ℤ
deriving DecidableEq, Repr

/-- The client_id, type_id, quantity projection of a consign_movements row. -/
structure ConsignMovementRowLite where
  client_id : String
  type_id : String
  quantity : ℤ
deriving DecidableEq, Repr

/-- The caller-supplied item shape of a consign transaction. -/
structure ConsignItemRaw where
  typeId : String
  quantity : ℚ
deriving DecidableEq, Repr

/-- A sanitized consign item: whole-unit positive quantity. -/
structure ConsignItem where
  typeId : String
  quantity : ℤ
deriving DecidableEq, Repr

/-- The body of the forEach loop of buildConsignTotalsFromRows: skip rows
with a falsy client or type identifier, otherwise add the row quantity to
the running sum of its (client, type) key. -/
def consignRowStep (acc : List ((String × String) × ℤ)) (row : ConsignMovementRowLite) :
    List ((String × String) × ℤ) :=
  if row.client_id = "" ∨ row.type_id = "" then acc
  else
    mapSet acc (row.client_id, row.type_id)
      ((mapGet acc (row.client_id, row.type_id)).getD 0 + row.quantity)

/-- buildConsignTotalsFromRows from store.tsx: fold the movement rows into
a keyed sum, then emit the entries in insertion order, dropping the pairs
whose sum is zero. -/
def buildConsignTotalsFromRows (rows : List ConsignMovementRowLite) : List ConsignTotal :=
  (rows.foldl consignRowStep []).filterMap
    (fun p => if p.2 = 0 then none else some ⟨p.1.1, p.1.2, p.2⟩)

/-- The body of the forEach loop of sanitizeConsignItems. -/
def sanitizeStep (acc : List (String × ℤ)) (item : ConsignItemRaw) : List (String × ℤ) :=
  if (jsTrim item.typeId) = "" then acc
  else
    if (⌊item.quantity⌋ : ℤ) ≤ 0 then acc
    else mapSet acc (jsTrim item.typeId) ((mapGet acc (jsTrim item.typeId)).getD 0 + ⌊item.quantity⌋)

/-- sanitizeConsignItems from store.tsx.  The Number.isFinite guard of the
source is vacuous over the rational model. -/
def sanitizeConsignItems (items : List ConsignItemRaw) : List ConsignItem :=
  (items.foldl sanitizeStep []).map (fun p => ⟨p.1, p.2⟩)

/-- The body of the first forEach loop of applyConsignDeltas. -/
def consignTotalsStep (acc : List ((String × String) × ℤ)) (entry : ConsignTotal) :
    List ((String × String) × ℤ) :=
  mapSet acc (entry.clientId, entry.typeId) entry.quantity

/-- The initial map applyConsignDeltas builds from the current totals. -/
def consignTotalsMap (totals : List ConsignTotal) : List ((String × String) × ℤ) :=
  totals.foldl consignTotalsStep []

/-- The body of the forEach loop of applyConsignDeltas over the items. -/
def applyDeltaStep (clientId : String) (multiplier : ℤ)
    (acc : List ((String × String) × ℤ)) (item : ConsignItem) :
    List ((String × String) × ℤ) :=
  let key := (clientId, item.typeId)
  let next := (mapGet acc key).getD 0 + item.quantity * multiplier
  if next = 0 then mapErase acc key else mapSet acc key next

/-- applyConsignDeltas from store.tsx. -/
def applyConsignDeltas (totals : List ConsignTotal) (clientId : String)
    (items : List ConsignItem) (multiplier : ℤ) : List ConsignTotal :=
  ((items.foldl (applyDeltaStep clientId multiplier) (consignTotalsMap totals)).map
      (fun p => (⟨p.1.1, p.1.2, p.2⟩ : ConsignTotal))).filter
    (fun e => decide (e.quantity ≠ 0))

/-! ### store.tsx: mutating operations with explicit remote effects -/

structure OrderItemInsert where
  order_id : String
  item_id : String
  item_name : String
  quantity : ℚ
  quantity_type : QuantityType
  unit_price : ℚ
  comment : Option String := none
deriving DecidableEq, Repr

structure ConsignMovementInsert where
  client_id : String
  type_id : String
  quantity : ℤ
  note : Option String := none
deriving DecidableEq, Repr

/-- A remote write issued by one of the store operations modelled here. -/
inductive RemoteWrite where
  | insertOrderHeader (client_id customer_name contact notes : String) (status : OrderStatus)
  | insertOrderItems (rows : List OrderItemInsert)
  | insertConsignMovements (rows : List ConsignMovementInsert)
deriving DecidableEq, Repr

structure NewOrderEntry where
  itemId : String
  quantity : ℚ
  comment : Option String := none
deriving DecidableEq, Repr

structure NewOrder where
  clientId : String
  customerName : String
  contact : String
  notes : String
  entries : List NewOrderEntry
deriving DecidableEq, Repr

/-- The entries.map callback of addOrder: resolve each requested entry
against the in-memory catalog, throwing on the first missing product,
otherwise snapshot the product fields onto a line-item row. -/
def buildOrderItemsPayload (items : List CheeseItem) (orderId : String) :
    List NewOrderEntry → Except String (List OrderItemInsert)
  | [] => Except.ok []
  | entry :: rest =>
    match items.find? (fun candidate => decide (candidate.id = entry.itemId)) with
    | none => Except.error "Produit introuvable"
    | some item =>
      match buildOrderItemsPayload items orderId rest with
      | Except.error e => Except.error e
      | Except.ok rows =>
        Except.ok ({ order_id := orderId, item_id := item.id, item_name := item.name,
                     quantity := entry.quantity, quantity_type := item.quantityType,
                     unit_price := item.price, comment := entry.comment } :: rows)

/-- addOrder from store.tsx.  The backend-generated order identifier,
creation timestamp and line-item row identifiers are passed in as
parameters of the environment; remote inserts are assumed to succeed and
to echo the inserted rows.  The order header insert is awaited before the
entries are resolved against the catalog, so a missing product leaves the
header write in the returned trace. -/
def addOrder (items : List CheeseItem) (orders : List Order) (payload : NewOrder)
    (genOrderId genCreatedAt : String) (genItemIds : List String) :
    List RemoteWrite × Except String (List Order) :=
  if payload.entries = [] then ([], Except.error "Impossible de créer une commande vide.")
  else
    let headerWrite := RemoteWrite.insertOrderHeader payload.clientId payload.customerName
      payload.contact payload.notes OrderStatus.nouvelle
    match buildOrderItemsPayload items genOrderId payload.entries with
    | Except.error e => ([headerWrite], Except.error e)
    | Except.ok rows =>
      let insertedItems := (genItemIds.zip rows).map (fun p =>
        ({ id := p.1, item_id := some p.2.item_id, item_name := p.2.item_name,
           quantity := p.2.quantity, quantity_type := p.2.quantity_type,
           unit_price := p.2.unit_price, comment := p.2.comment } : OrderItemRow))
      ([headerWrite, RemoteWrite.insertOrderItems rows],
        Except.ok (mapOrderFromRow
          { id := genOrderId, customer_name := payload.customerName,
            contact := some payload.contact, notes := some payload.notes,
            client_id := some payload.clientId, created_at := genCreatedAt,
            status := OrderStatus.nouvelle, order_items := insertedItems } :: orders))

structure ConsignTransactionPayload where
  clientId : String
  items : List ConsignItemRaw
  note : Option String := none
deriving DecidableEq, Repr

/-- The outstanding balance the return path of recordConsignMovements reads
for one (client, type) pair: the map built from the current totals entries
of that client, read at the type identifier, defaulting to 0. -/
def outstandingFor (totals : List ConsignTotal) (clientId typeId : String) : ℤ :=
  (mapGet (totals.foldl
      (fun acc e => if e.clientId = clientId then mapSet acc e.typeId e.quantity else acc) [])
    typeId).getD 0

/-- recordConsignMovements from store.tsx.  Returns the issued remote
writes together with either the thrown error or the updated totals. -/
def recordConsignMovements (consignTotals : List ConsignTotal)
    (payload : ConsignTransactionPayload) (multiplier : ℤ) :
    List RemoteWrite × Except String (List ConsignTotal) :=
  let clientId := (jsTrim payload.clientId)
  if clientId = "" then ([], Except.error "Selectionnez un client.")
  else
    let sanitizedItems := sanitizeConsignItems payload.items
    if sanitizedItems = [] then ([], Except.error "Ajoutez au moins une consigne a traiter.")
    else if multiplier = -1 ∧ sanitizedItems.any
        (fun item => decide (outstandingFor consignTotals clientId item.typeId < item.quantity)) = true then
      ([], Except.error "Quantite retournee superieure aux consignes du client.")
    else
      let payloadRows := sanitizedItems.map (fun item =>
        ({ client_id := clientId, type_id := item.typeId, quantity := item.quantity * multiplier,
           note := match payload.note with
                   | none => none
                   | some s => if jsTrim s = "" then none else some (jsTrim s) } : ConsignMovementInsert))
      ([RemoteWrite.insertConsignMovements payloadRows],
        Except.ok (applyConsignDeltas consignTotals clientId sanitizedItems multiplier))

/-- assignConsigns from store.tsx. -/
def assignConsigns (consignTotals : List ConsignTotal) (payload : ConsignTransactionPayload) :
    List RemoteWrite × Except String (List ConsignTotal) :=
  recordConsignMovements consignTotals payload 1

/-- returnConsigns from store.tsx. -/
def returnConsigns (consignTotals : List ConsignTotal) (payload : ConsignTransactionPayload) :
    List RemoteWrite × Except String (List ConsignTotal) :=
  recordConsignMovements consignTotals payload (-1)

/-! ### Spec-side companion definitions (claim C7) -/

/-- An entry survives sanitization when its trimmed type identifier is
nonempty and its floored quantity is positive. -/
def keptItem (i : ConsignItemRaw) : Bool :=
  decide ((jsTrim i.typeId) ≠ "") && decide (0 < (⌊i.quantity⌋ : ℤ))

/-- First-occurrence deduplication, keeping insertion order. -/
def firstKeys (l : List String) : List String :=
  l.foldl (fun acc t => if t ∈ acc then acc else acc ++ [t]) []

/-- The surviving trimmed type identifiers in first-occurrence order. -/
def sanitizedKeys (items : List ConsignItemRaw) : List String :=
  firstKeys ((items.filter keptItem).map (fun i => (jsTrim i.typeId)))

/-- The summed floored quantity of the surviving entries of one trimmed
type identifier. -/
def sanitizedTotal (items : List ConsignItemRaw) (t : String) : ℤ :=
  (((items.filter keptItem).filter (fun i => decide ((jsTrim i.typeId) = t))).map
    (fun i => (⌊i.quantity⌋ : ℤ))).sum

/-- The association list of surviving keys and their summed quantities. -/
def sanitizeAssoc (items : List ConsignItemRaw) : List (String × ℤ) :=
  (sanitizedKeys items).map (fun t => (t, sanitizedTotal items t))

/-- Sanitization as the claim words it: discard blank identifiers and
non-positive floored quantities, merge duplicates by summation, keep the
first-occurrence order of the surviving identifiers. -/
def sanitizeConsignItemsSpec (items : List ConsignItemRaw) : List ConsignItem :=
  (sanitizedKeys items).map (fun t => ⟨t, sanitizedTotal items t⟩)

/-! ### Helper valuations for the ledger claims -/

/-- The net quantity of one (client, type) key over a movement log,
counting only rows with nonempty identifiers. -/
def logTotal (rows : List ConsignMovementRowLite) (k : String × String) : ℤ :=
  ((rows.filter (fun r =>
      decide (¬(r.client_id = "" ∨ r.type_id = "") ∧ (r.client_id, r.type_id) = k))).map
    (fun r => r.quantity)).sum

/-- The signed delta one transaction contributes to one key. -/
def deltaSum (clientId : String) (multiplier : ℤ) (items : List ConsignItem)
    (k : String × String) : ℤ :=
  ((items.filter (fun i => decide ((clientId, i.typeId) = k))).map
    (fun i => i.quantity * multiplier)).sum

/-! ### Concrete inputs used by counterexamples and witnesses -/

def payloadC1 : NewOrder :=
  { clientId := "c1", customerName := "Alice", contact := "", notes := "",
    entries := [{ itemId := "missing-product", quantity := 1 }] }

def payloadC4 : NewItemPayload :=
  { name := "Brie", price := 100, quantityType := QuantityType.kg, multipleOf := some (-1) }

def payloadC4W : NewItemPayload :=
  { name := "Comté", price := 200, quantityType := QuantityType.g500, step := some 0 }

def itemC5W : CheeseItem :=
  { id := "i1", name := "Tomme", price := 50, quantityType := QuantityType.kg,
    multipleOf := some 1 }

def orderC6A : Order :=
  { id := "o1", customerName := "A", contact := "", notes := "", createdAt := "t0",
    status := OrderStatus.nouvelle,
    entries := [{ id := "e1", itemId := "i1", itemName := "Tomme",
                  quantityType := QuantityType.kg, quantity := 2, unitPrice := 50 },
                { id := "e2", itemId := "i2", itemName := "Brie",
                  quantityType := QuantityType.pc, quantity := 1, unitPrice := 30 }] }

def orderC6B : Order :=
  { orderC6A with entries := orderC6A.entries.reverse }

def rowC10 : OrderItemRow :=
  { id := "row-1", item_id := none, item_name := "Tomme", quantity := 2,
    quantity_type := QuantityType.kg, unit_price := 50 }

def totalsC2 : List ConsignTotal := [⟨"c1", "t1", 2⟩]

def payloadC2 : ConsignTransactionPayload :=
  { clientId := "c1", items := [⟨"t1", 3⟩] }

def rowsC3 : List ConsignMovementRowLite := [⟨"c1", "t1", 5⟩]

def itemsC3 : List ConsignItem := [⟨"t1", 3⟩]

def rowsC8 : List ConsignMovementRowLite := [⟨"c", "t", 2⟩]

/-! ## Theorems -/

/-! ### Conversion utilities -/

theorem QUANTITY_INPUT_STEP_pos (qt : QuantityType) : 0 < QUANTITY_INPUT_STEP qt := by
  cases qt <;> norm_num [QUANTITY_INPUT_STEP]

theorem unitSizeInKg_pos (qt : QuantityType) : 0 < unitSizeInKg qt := by
  cases qt <;> norm_num [unitSizeInKg, KG_PER_UNIT]

theorem toUnitQuantity_eq_zero_iff (qt : QuantityType) (q : ℚ) :
    toUnitQuantity qt q = 0 ↔ q = 0 := by
  rcases eq_or_ne q 0 with hq | hq
  · simp [toUnitQuantity, hq]
  · cases qt <;>
      simp [toUnitQuantity, isPieceQuantity, unitSizeInKg, KG_PER_UNIT, hq] <;>
      norm_num [hq]

/-- The floor-based rounding of the model is a nearest integer. -/
theorem abs_sub_jsRound_le (x : ℚ) (z : ℤ) :
    |x - (jsRound x : ℚ)| ≤ |x - (z : ℚ)| := by
  unfold jsRound
  have h1 : ((⌊x + 1/2⌋ : ℤ) : ℚ) ≤ x + 1/2 := Int.floor_le _
  have h2 : x + 1/2 < ((⌊x + 1/2⌋ : ℤ) : ℚ) + 1 := Int.lt_floor_add_one _
  rcases eq_or_ne z ⌊x + 1/2⌋ with rfl | hz
  · exact le_refl _
  · have hzn : (1 : ℚ) ≤ |(z : ℚ) - ((⌊x + 1/2⌋ : ℤ) : ℚ)| := by
      have hne : z - ⌊x + 1/2⌋ ≠ 0 := sub_ne_zero.mpr hz
      have h1le : (1 : ℤ) ≤ |z - ⌊x + 1/2⌋| := Int.one_le_abs hne
      exact_mod_cast h1le
    have hxn : |x - ((⌊x + 1/2⌋ : ℤ) : ℚ)| ≤ 1/2 :=
      abs_le.mpr ⟨by linarith, by linarith⟩
    have htri : |(z : ℚ) - ((⌊x + 1/2⌋ : ℤ) : ℚ)|
        ≤ |(z : ℚ) - x| + |x - ((⌊x + 1/2⌋ : ℤ) : ℚ)| := abs_sub_le _ _ _
    have hcomm : |x - (z : ℚ)| = |(z : ℚ) - x| := abs_sub_comm _ _
    linarith

theorem exists_int_near_iff (x ε : ℚ) :
    (∃ z : ℤ, |x - (z : ℚ)| < ε) ↔ |x - (jsRound x : ℚ)| < ε := by
  constructor
  · rintro ⟨z, hz⟩
    exact lt_of_le_of_lt (abs_sub_jsRound_le x z) hz
  · intro h
    exact ⟨jsRound x, h⟩

/-- C9: toDisplayQuantity is a left inverse of toUnitQuantity on
non-negative display quantities (here over exact rational arithmetic with
the per-type factors 1, 1, 1/10, 1/2), and for the per-piece quantity-type
both conversions are the identity. -/
theorem quantity_conversion_roundtrip (qt : QuantityType) (q : ℚ) (h : 0 ≤ q) :
    toDisplayQuantity qt (toUnitQuantity qt q) = q ∧
    (∀ x : ℚ, toUnitQuantity QuantityType.pc x = x ∧ toDisplayQuantity QuantityType.pc x = x) := by
  have hpc : ∀ x : ℚ, toUnitQuantity QuantityType.pc x = x ∧ toDisplayQuantity QuantityType.pc x = x := by
    intro x
    rcases eq_or_ne x 0 with hx | hx
    · subst hx
      constructor <;> simp [toUnitQuantity, toDisplayQuantity]
    · constructor <;> simp [toUnitQuantity, toDisplayQuantity, isPieceQuantity, hx]
  refine ⟨?_, hpc⟩
  rcases eq_or_ne q 0 with hq | hq
  · subst hq
    simp [toUnitQuantity, toDisplayQuantity]
  · rcases eq_or_ne qt QuantityType.pc with rfl | hqt
    · rw [(hpc q).1, (hpc q).2]
    · have hb : isPieceQuantity qt = false := by
        simp [isPieceQuantity, hqt]
      have hsz := unitSizeInKg_pos qt
      have hu : toUnitQuantity qt q = q / unitSizeInKg qt := by
        rw [toUnitQuantity, if_neg hq, hb]
        simp only [Bool.false_eq_true, if_false]
        rw [if_neg (not_le.mpr hsz)]
      have hune : q / unitSizeInKg qt ≠ 0 := div_ne_zero hq (ne_of_gt hsz)
      rw [hu, toDisplayQuantity, if_neg hune, hb]
      simp only [Bool.false_eq_true, if_false]
      rw [if_neg (not_le.mpr hsz)]
      field_simp

theorem quantity_conversion_roundtrip_witness :
    toDisplayQuantity QuantityType.g100 (toUnitQuantity QuantityType.g100 (3/10)) = 3/10 :=
  (quantity_conversion_roundtrip QuantityType.g100 (3/10) (by norm_num)).1

/-- C5: validateQuantityMultiple accepts when the item has no configured
multiple or the quantity is zero; with a configured nonzero multiple m and
a nonzero quantity it accepts exactly when the ratio of the canonical
quantity to m lies within EPSILON of the nearest integer, and on rejection
it returns the message naming m and the quantity-type label. -/
theorem validateQuantityMultiple_spec (item : CheeseItem) (q : ℚ) :
    ((item.multipleOf.getD 0 = 0 ∨ q = 0) → validateQuantityMultiple item q = none) ∧
    (∀ m : ℚ, item.multipleOf = some m → m ≠ 0 → q ≠ 0 →
      ((validateQuantityMultiple item q = none ↔
          ∃ z : ℤ, |toUnitQuantity item.quantityType q / m - (z : ℚ)| < EPSILON) ∧
        (validateQuantityMultiple item q = none ∨
          validateQuantityMultiple item q =
            some ("Quantité multiple de " ++ toString m ++ " "
              ++ QUANTITY_TYPE_LABELS item.quantityType)))) := by
  constructor
  · intro h
    rw [validateQuantityMultiple, if_pos h]
  · intro m hm hm0 hq
    have hgd : item.multipleOf.getD 0 = m := by rw [hm]; rfl
    have hcond : ¬(item.multipleOf.getD 0 = 0 ∨ q = 0) := by
      push_neg
      exact ⟨by rw [hgd]; exact hm0, hq⟩
    have huq : ¬(toUnitQuantity item.quantityType q = 0) := by
      rw [toUnitQuantity_eq_zero_iff]
      exact hq
    rw [validateQuantityMultiple, if_neg hcond]
    simp only [huq, if_false, hgd]
    constructor
    · rw [exists_int_near_iff]
      split_ifs with hnear
      · simp [hnear]
      · simp [hnear]
    · split_ifs with hnear
      · exact Or.inl rfl
      · exact Or.inr rfl

theorem validateQuantityMultiple_spec_witness :
    validateQuantityMultiple itemC5W 3 = none :=
  ((validateQuantityMultiple_spec itemC5W 3).2 1 rfl (by norm_num) (by norm_num)).1.mpr
    ⟨3, by norm_num [toUnitQuantity, isPieceQuantity, unitSizeInKg, KG_PER_UNIT, EPSILON, itemC5W]⟩

/-! ### Association-list map lemmas -/

theorem mapGet_mapSet {α β : Type} [DecidableEq α] (m : List (α × β)) (k k' : α) (v : β) :
    mapGet (mapSet m k v) k' = if k = k' then some v else mapGet m k' := by
  induction m with
  | nil => by_cases hk : k = k' <;> simp [mapSet, mapGet, hk]
  | cons p rest ih =>
    by_cases hp : p.1 = k
    · by_cases hk : k = k'
      · simp [mapSet, mapGet, hp, hk]
      · have hp' : ¬(p.1 = k') := by rw [hp]; exact hk
        simp [mapSet, mapGet, hp, hk, hp']
    · by_cases hpk' : p.1 = k'
      · have hk : ¬(k = k') := fun h => hp (by rw [h, hpk'])
        have hk2 : ¬(k' = k) := fun h => hk h.symm
        simp [mapSet, mapGet, hp, hpk', hk, hk2]
      · simp [mapSet, mapGet, hp, hpk', ih]

theorem mapGet_mapErase {α β : Type} [DecidableEq α] (m : List (α × β)) (k k' : α) :
    mapGet (mapErase m k) k' = if k = k' then none else mapGet m k' := by
  induction m with
  | nil => by_cases hk : k = k' <;> simp [mapErase, mapGet, hk]
  | cons p rest ih =>
    by_cases hp : p.1 = k
    · have he : mapErase (p :: rest) k = mapErase rest k := by
        simp [mapErase, List.filter_cons, hp]
      rw [he, ih]
      by_cases hk : k = k'
      · simp [hk]
      · have hp' : ¬(p.1 = k') := by rw [hp]; exact hk
        simp [mapGet, hk, hp']
    · have he : mapErase (p :: rest) k = p :: mapErase rest k := by
        simp [mapErase, List.filter_cons, hp]
      rw [he]
      by_cases hpk' : p.1 = k'
      · have hk : ¬(k = k') := fun h => hp (by rw [h, hpk'])
        simp [mapGet, hpk', hk]
      · simp [mapGet, hpk', ih]

theorem keys_mapSet_subset {α β : Type} [DecidableEq α] (m : List (α × β)) (k a : α) (v : β) :
    a ∈ (mapSet m k v).map Prod.fst ↔ a ∈ m.map Prod.fst ∨ a = k := by
  induction m with
  | nil => simp [mapSet]
  | cons p rest ih =>
    by_cases hp : p.1 = k <;> simp [mapSet, hp, ih] <;> tauto

theorem nodupKeys_mapSet {α β : Type} [DecidableEq α] (m : List (α × β)) (k : α) (v : β)
    (h : nodupKeys m) : nodupKeys (mapSet m k v) := by
  induction m with
  | nil => simp [mapSet, nodupKeys]
  | cons p rest ih =>
    rw [nodupKeys, List.map_cons, List.nodup_cons] at h
    obtain ⟨hpm, hrest⟩ := h
    by_cases hp : p.1 = k
    · have he : mapSet (p :: rest) k v = (k, v) :: rest := by simp [mapSet, hp]
      rw [he, nodupKeys, List.map_cons, List.nodup_cons]
      exact ⟨by rw [← hp]; exact hpm, hrest⟩
    · have he : mapSet (p :: rest) k v = p :: mapSet rest k v := by simp [mapSet, hp]
      rw [he, nodupKeys, List.map_cons, List.nodup_cons]
      refine ⟨?_, ih hrest⟩
      intro hmem
      rcases (keys_mapSet_subset rest k p.1 v).mp hmem with h1 | h1
      · exact hpm h1
      · exact hp h1

theorem nodupKeys_mapErase {α β : Type} [DecidableEq α] (m : List (α × β)) (k : α)
    (h : nodupKeys m) : nodupKeys (mapErase m k) := by
  have hs : List.Sublist ((mapErase m k).map Prod.fst) (m.map Prod.fst) :=
    (List.filter_sublist m).map Prod.fst
  exact List.Nodup.sublist hs h

theorem mem_iff_mapGet {α β : Type} [DecidableEq α] (m : List (α × β)) (k : α) (v : β)
    (h : nodupKeys m) : (k, v) ∈ m ↔ mapGet m k = some v := by
  induction m with
  | nil => simp [mapGet]
  | cons p rest ih =>
    rw [nodupKeys, List.map_cons, List.nodup_cons] at h
    obtain ⟨hpm, hrest⟩ := h
    by_cases hp : p.1 = k
    · obtain ⟨p1, p2⟩ := p
      dsimp at hp hpm
      subst hp
      have hmem : (p1, v) ∉ rest := fun hm => hpm (List.mem_map.mpr ⟨(p1, v), hm, rfl⟩)
      simp [mapGet, hmem, eq_comm]
    · have hne : (k, v) ≠ p := fun he => hp (by rw [← he])
      rw [mapGet, if_neg hp, ← ih hrest]
      simp [List.mem_cons, hne]

theorem nodupKeys_foldl {α β γ : Type} [DecidableEq α]
    (f : List (α × β) → γ → List (α × β))
    (hf : ∀ acc x, nodupKeys acc → nodupKeys (f acc x)) :
    ∀ (l : List γ) (acc : List (α × β)), nodupKeys acc → nodupKeys (l.foldl f acc)
  | [], _, h => h
  | x :: xs, acc, h => nodupKeys_foldl f hf xs (f acc x) (hf acc x h)

/-! ### Deposit ledger: valuation lemmas -/

theorem logTotal_cons (r : ConsignMovementRowLite) (rest : List ConsignMovementRowLite)
    (k : String × String) :
    logTotal (r :: rest) k =
      (if ¬(r.client_id = "" ∨ r.type_id = "") ∧ (r.client_id, r.type_id) = k
        then r.quantity else 0) + logTotal rest k := by
  rw [logTotal, logTotal, List.filter_cons]
  by_cases hc : ¬(r.client_id = "" ∨ r.type_id = "") ∧ (r.client_id, r.type_id) = k
  · rw [if_pos (decide_eq_true hc), if_pos hc, List.map_cons, List.sum_cons]
  · rw [if_neg (fun h => hc (of_decide_eq_true h)), if_neg hc, zero_add]

theorem logTotal_append (l1 l2 : List ConsignMovementRowLite) (k : String × String) :
    logTotal (l1 ++ l2) k = logTotal l1 k + logTotal l2 k := by
  rw [logTotal, logTotal, logTotal, List.filter_append, List.map_append, List.sum_append]

theorem deltaSum_cons (c : String) (m : ℤ) (i : ConsignItem) (rest : List ConsignItem)
    (k : String × String) :
    deltaSum c m (i :: rest) k =
      (if (c, i.typeId) = k then i.quantity * m else 0) + deltaSum c m rest k := by
  rw [deltaSum, deltaSum, List.filter_cons]
  by_cases hk : (c, i.typeId) = k
  · rw [if_pos (decide_eq_true hk), if_pos hk, List.map_cons, List.sum_cons]
  · rw [if_neg (fun h => hk (of_decide_eq_true h)), if_neg hk, zero_add]

theorem nodupKeys_consignRowStep (acc : List ((String × String) × ℤ))
    (row : ConsignMovementRowLite) (h : nodupKeys acc) : nodupKeys (consignRowStep acc row) := by
  rw [consignRowStep]
  split_ifs
  · exact h
  · exact nodupKeys_mapSet _ _ _ h

theorem nodupKeys_applyDeltaStep (c : String) (m : ℤ) (acc : List ((String × String) × ℤ))
    (i : ConsignItem) (h : nodupKeys acc) : nodupKeys (applyDeltaStep c m acc i) := by
  rw [applyDeltaStep]
  split_ifs
  · exact nodupKeys_mapErase _ _ h
  · exact nodupKeys_mapSet _ _ _ h

theorem nodupKeys_consignTotalsStep (acc : List ((String × String) × ℤ))
    (e : ConsignTotal) (h : nodupKeys acc) : nodupKeys (consignTotalsStep acc e) :=
  nodupKeys_mapSet _ _ _ h

theorem consignRowStep_getD (acc : List ((String × String) × ℤ))
    (r : ConsignMovementRowLite) (k : String × String) :
    (mapGet (consignRowStep acc r) k).getD 0 =
      (mapGet acc k).getD 0 +
        (if ¬(r.client_id = "" ∨ r.type_id = "") ∧ (r.client_id, r.type_id) = k
          then r.quantity else 0) := by
  rw [consignRowStep]
  by_cases hv : r.client_id = "" ∨ r.type_id = ""
  · rw [if_pos hv]
    simp [hv]
  · rw [if_neg hv, mapGet_mapSet]
    by_cases hk : (r.client_id, r.type_id) = k
    · rw [if_pos hk, hk]
      simp [hv, hk]
    · rw [if_neg hk]
      simp [hv, hk]

theorem consignRowStep_foldl_getD (rows : List ConsignMovementRowLite) :
    ∀ (acc : List ((String × String) × ℤ)) (k : String × String),
      (mapGet (rows.foldl consignRowStep acc) k).getD 0
        = (mapGet acc k).getD 0 + logTotal rows k := by
  induction rows with
  | nil =>
    intro acc k
    simp [logTotal]
  | cons r rest ih =>
    intro acc k
    rw [List.foldl_cons, ih, logTotal_cons, consignRowStep_getD]
    ring

theorem applyDeltaStep_getD (c : String) (m : ℤ) (acc : List ((String × String) × ℤ))
    (i : ConsignItem) (k : String × String) :
    (mapGet (applyDeltaStep c m acc i) k).getD 0 =
      (mapGet acc k).getD 0 + (if (c, i.typeId) = k then i.quantity * m else 0) := by
  simp only [applyDeltaStep]
  by_cases hk : (c, i.typeId) = k
  · rw [if_pos hk]
    split_ifs with h0
    · rw [mapGet_mapErase, if_pos hk]
      simp only [Option.getD_none]
      rw [← hk]
      linarith
    · rw [mapGet_mapSet, if_pos hk, ← hk]
      simp
  · rw [if_neg hk]
    split_ifs with h0
    · rw [mapGet_mapErase, if_neg hk, add_zero]
    · rw [mapGet_mapSet, if_neg hk, add_zero]

theorem applyDeltaStep_foldl_getD (c : String) (m : ℤ) (items : List ConsignItem) :
    ∀ (acc : List ((String × String) × ℤ)) (k : String × String),
      (mapGet (items.foldl (applyDeltaStep c m) acc) k).getD 0
        = (mapGet acc k).getD 0 + deltaSum c m items k := by
  induction items with
  | nil =>
    intro acc k
    simp [deltaSum]
  | cons i rest ih =>
    intro acc k
    rw [List.foldl_cons, ih, deltaSum_cons, applyDeltaStep_getD]
    ring

theorem consignTotalsStep_foldl_of_notmem (totals : List ConsignTotal) :
    ∀ (acc : List ((String × String) × ℤ)) (k : String × String),
      (∀ e ∈ totals, (e.clientId, e.typeId) ≠ k) →
      mapGet (totals.foldl consignTotalsStep acc) k = mapGet acc k := by
  induction totals with
  | nil =>
    intro acc k _
    rfl
  | cons e rest ih =>
    intro acc k h
    rw [List.foldl_cons, ih _ _ (fun x hx => h x (List.mem_cons_of_mem _ hx)),
      consignTotalsStep, mapGet_mapSet, if_neg (h e (List.mem_cons_self _ _))]

theorem consignTotalsStep_foldl_get (totals : List ConsignTotal) :
    ∀ (acc : List ((String × String) × ℤ)) (k : String × String),
      ((totals.map (fun e => (e.clientId, e.typeId))).Nodup) →
      mapGet (totals.foldl consignTotalsStep acc) k =
        (match totals.find? (fun x => decide ((x.clientId, x.typeId) = k)) with
         | some e => some e.quantity
         | none => mapGet acc k) := by
  induction totals with
  | nil =>
    intro acc k _
    rfl
  | cons e rest ih =>
    intro acc k h
    rw [List.map_cons, List.nodup_cons] at h
    obtain ⟨hkm, hrest⟩ := h
    rw [List.foldl_cons]
    by_cases hk : (e.clientId, e.typeId) = k
    · have hfind : (e :: rest).find? (fun x => decide ((x.clientId, x.typeId) = k)) = some e :=
        List.find?_cons_of_pos _ (decide_eq_true hk)
      rw [hfind]
      have hnone : ∀ x ∈ rest, (x.clientId, x.typeId) ≠ k := by
        intro x hx heq
        exact hkm (List.mem_map.mpr ⟨x, hx, heq.trans hk.symm⟩)
      rw [consignTotalsStep_foldl_of_notmem rest _ k hnone, consignTotalsStep,
        mapGet_mapSet, if_pos hk]
    · have hfind : (e :: rest).find? (fun x => decide ((x.clientId, x.typeId) = k))
          = rest.find? (fun x => decide ((x.clientId, x.typeId) = k)) :=
        List.find?_cons_of_neg _ (by simp [hk])
      rw [hfind, ih _ _ hrest]
      cases hf : rest.find? (fun x => decide ((x.clientId, x.typeId) = k)) with
      | some e' => rfl
      | none =>
        show mapGet (consignTotalsStep acc e) k = mapGet acc k
        rw [consignTotalsStep, mapGet_mapSet, if_neg hk]

theorem buildConsignTotals_keys_sublist (m : List ((String × String) × ℤ)) :
    List.Sublist
      ((m.filterMap (fun p =>
          if p.2 = 0 then none else some (⟨p.1.1, p.1.2, p.2⟩ : ConsignTotal))).map
        (fun e => (e.clientId, e.typeId)))
      (m.map Prod.fst) := by
  induction m with
  | nil => simp
  | cons p rest ih =>
    rw [List.filterMap_cons]
    by_cases hz : p.2 = 0
    · rw [if_pos hz, List.map_cons]
      exact ih.cons _
    · rw [if_neg hz, List.map_cons, List.map_cons]
      exact ih.cons₂ _

theorem buildConsignTotals_keysNodup (rows : List ConsignMovementRowLite) :
    ((buildConsignTotalsFromRows rows).map (fun e => (e.clientId, e.typeId))).Nodup := by
  have hnd : nodupKeys (rows.foldl consignRowStep []) :=
    nodupKeys_foldl _ nodupKeys_consignRowStep rows [] (by simp [nodupKeys])
  exact List.Nodup.sublist (buildConsignTotals_keys_sublist _) hnd

/-! ### Deposit ledger: membership characterizations -/

theorem mem_buildConsignTotalsFromRows (rows : List ConsignMovementRowLite) (e : ConsignTotal) :
    e ∈ buildConsignTotalsFromRows rows ↔
      (mapGet (rows.foldl consignRowStep []) (e.clientId, e.typeId) = some e.quantity
        ∧ e.quantity ≠ 0) := by
  have hnd : nodupKeys (rows.foldl consignRowStep []) :=
    nodupKeys_foldl _ nodupKeys_consignRowStep rows [] (by simp [nodupKeys])
  rw [buildConsignTotalsFromRows, List.mem_filterMap]
  constructor
  · rintro ⟨p, hp, hpe⟩
    by_cases hz : p.2 = 0
    · rw [if_pos hz] at hpe
      cases hpe
    · rw [if_neg hz] at hpe
      have he : e = (⟨p.1.1, p.1.2, p.2⟩ : ConsignTotal) := by
        injection hpe with h
        exact h.symm
      subst he
      refine ⟨?_, hz⟩
      exact (mem_iff_mapGet _ _ _ hnd).mp hp
  · rintro ⟨hget, hz⟩
    refine ⟨((e.clientId, e.typeId), e.quantity), (mem_iff_mapGet _ _ _ hnd).mpr hget, ?_⟩
    rw [if_neg hz]

theorem mem_applyConsignDeltas (totals : List ConsignTotal) (c : String)
    (items : List ConsignItem) (mult : ℤ) (e : ConsignTotal) :
    e ∈ applyConsignDeltas totals c items mult ↔
      (mapGet (items.foldl (applyDeltaStep c mult) (consignTotalsMap totals))
          (e.clientId, e.typeId) = some e.quantity ∧ e.quantity ≠ 0) := by
  have hnd0 : nodupKeys (consignTotalsMap totals) :=
    nodupKeys_foldl _ nodupKeys_consignTotalsStep totals [] (by simp [nodupKeys])
  have hnd : nodupKeys (items.foldl (applyDeltaStep c mult) (consignTotalsMap totals)) :=
    nodupKeys_foldl _ (nodupKeys_applyDeltaStep c mult) items _ hnd0
  rw [applyConsignDeltas, List.mem_filter]
  constructor
  · rintro ⟨hmem, hq⟩
    obtain ⟨p, hp, hpe⟩ := List.mem_map.mp hmem
    have he : e = (⟨p.1.1, p.1.2, p.2⟩ : ConsignTotal) := hpe.symm
    subst he
    exact ⟨(mem_iff_mapGet _ _ _ hnd).mp hp, of_decide_eq_true hq⟩
  · rintro ⟨hget, hz⟩
    refine ⟨List.mem_map.mpr ⟨((e.clientId, e.typeId), e.quantity),
      (mem_iff_mapGet _ _ _ hnd).mpr hget, rfl⟩, decide_eq_true hz⟩

/-- C8: the aggregated deposit-balance view never contains a zero net
quantity: every entry of buildConsignTotalsFromRows and, from totals
satisfying the invariant, every entry of applyConsignDeltas has a
non-zero quantity. -/
theorem consign_view_nonzero (rows : List ConsignMovementRowLite) (totals : List ConsignTotal)
    (clientId : String) (items : List ConsignItem) (multiplier : ℤ)
    (hinv : ∀ e ∈ totals, e.quantity ≠ 0) :
    (∀ e ∈ buildConsignTotalsFromRows rows, e.quantity ≠ 0) ∧
    (∀ e ∈ applyConsignDeltas totals clientId items multiplier, e.quantity ≠ 0) := by
  constructor
  · intro e he
    exact ((mem_buildConsignTotalsFromRows rows e).mp he).2
  · intro e he
    exact ((mem_applyConsignDeltas totals clientId items multiplier e).mp he).2

theorem consign_view_nonzero_witness :
    ({ clientId := "c", typeId := "t", quantity := 2 } : ConsignTotal).quantity ≠ 0 :=
  (consign_view_nonzero rowsC8 [] "c" [] 1 (by simp)).1 ⟨"c", "t", 2⟩ (by decide)

/-! ### Deposit ledger: the incremental update agrees with a full re-fold -/

theorem mapGet_eq_some_iff_getD (mp : List ((String × String) × ℤ)) (k : String × String)
    (q : ℤ) (hq : q ≠ 0) :
    mapGet mp k = some q ↔ (mapGet mp k).getD 0 = q := by
  cases h : mapGet mp k with
  | none => simp [eq_comm, hq]
  | some v => simp

theorem consignTotalsMap_build_getD (L : List ConsignMovementRowLite) (k : String × String) :
    (mapGet (consignTotalsMap (buildConsignTotalsFromRows L)) k).getD 0
      = (mapGet (L.foldl consignRowStep []) k).getD 0 := by
  have hnd : nodupKeys (L.foldl consignRowStep []) :=
    nodupKeys_foldl _ nodupKeys_consignRowStep L [] (by simp [nodupKeys])
  rw [consignTotalsMap,
    consignTotalsStep_foldl_get (buildConsignTotalsFromRows L) [] k
      (buildConsignTotals_keysNodup L)]
  cases hf : (buildConsignTotalsFromRows L).find? (fun x => decide ((x.clientId, x.typeId) = k)) with
  | some e =>
    have hmem : e ∈ buildConsignTotalsFromRows L := List.mem_of_find?_eq_some hf
    have hkey : (e.clientId, e.typeId) = k := by
      have hp := List.find?_some hf
      simpa using hp
    have hchar := (mem_buildConsignTotalsFromRows L e).mp hmem
    rw [hkey] at hchar
    rw [hchar.1]
  | none =>
    have hno : ∀ x ∈ buildConsignTotalsFromRows L, ¬((x.clientId, x.typeId) = k) := by
      intro x hx
      have := List.find?_eq_none.mp hf x hx
      simpa using this
    cases hg : mapGet (L.foldl consignRowStep []) k with
    | none => simp [mapGet]
    | some v =>
      by_cases hv : v = 0
      · simp [mapGet, hv]
      · exfalso
        have hmem : (⟨k.1, k.2, v⟩ : ConsignTotal) ∈ buildConsignTotalsFromRows L := by
          rw [mem_buildConsignTotalsFromRows]
          exact ⟨hg, hv⟩
        exact hno _ hmem rfl

theorem logTotal_extra (c : String) (m : ℤ) (I : List ConsignItem) (hc : c ≠ "")
    (hI : ∀ i ∈ I, i.typeId ≠ "") (k : String × String) :
    logTotal (I.map (fun i => (⟨c, i.typeId, i.quantity * m⟩ : ConsignMovementRowLite))) k
      = deltaSum c m I k := by
  induction I with
  | nil => simp [logTotal, deltaSum]
  | cons i rest ih =>
    rw [List.map_cons, logTotal_cons, deltaSum_cons,
      ih (fun x hx => hI x (List.mem_cons_of_mem _ hx))]
    congr 1
    have hit : i.typeId ≠ "" := hI i (List.mem_cons_self _ _)
    by_cases hk : (c, i.typeId) = k
    · rw [if_pos hk, if_pos ⟨fun h => h.elim hc hit, hk⟩]
    · rw [if_neg hk, if_neg (fun h => hk h.2)]

/-- C3: applying one transaction's deltas to the totals aggregated from a
movement log yields, as a set of balances, the same result as re-folding
the log extended with one movement of quantity times multiplier per
sanitized item. -/
theorem applyConsignDeltas_consistent_with_rebuild (L : List ConsignMovementRowLite)
    (c : String) (I : List ConsignItem) (m : ℤ) (hm : m = 1 ∨ m = -1) (hc : c ≠ "")
    (hI : ∀ i ∈ I, i.typeId ≠ "") (e : ConsignTotal) :
    e ∈ applyConsignDeltas (buildConsignTotalsFromRows L) c I m ↔
      e ∈ buildConsignTotalsFromRows
        (L ++ I.map (fun i => (⟨c, i.typeId, i.quantity * m⟩ : ConsignMovementRowLite))) := by
  have hgd : (mapGet (I.foldl (applyDeltaStep c m)
        (consignTotalsMap (buildConsignTotalsFromRows L))) (e.clientId, e.typeId)).getD 0
      = (mapGet ((L ++ I.map (fun i =>
            (⟨c, i.typeId, i.quantity * m⟩ : ConsignMovementRowLite))).foldl
          consignRowStep []) (e.clientId, e.typeId)).getD 0 := by
    rw [applyDeltaStep_foldl_getD, consignTotalsMap_build_getD,
      consignRowStep_foldl_getD, consignRowStep_foldl_getD,
      logTotal_append, logTotal_extra c m I hc hI]
    simp [mapGet]
  rw [mem_applyConsignDeltas, mem_buildConsignTotalsFromRows]
  constructor
  · rintro ⟨hget, hz⟩
    refine ⟨?_, hz⟩
    rw [mapGet_eq_some_iff_getD _ _ _ hz] at hget ⊢
    rw [← hgd]
    exact hget
  · rintro ⟨hget, hz⟩
    refine ⟨?_, hz⟩
    rw [mapGet_eq_some_iff_getD _ _ _ hz] at hget ⊢
    rw [hgd]
    exact hget

theorem applyConsignDeltas_consistent_with_rebuild_witness :
    (⟨"c1", "t1", 2⟩ : ConsignTotal) ∈
        applyConsignDeltas (buildConsignTotalsFromRows rowsC3) "c1" itemsC3 (-1) ↔
      (⟨"c1", "t1", 2⟩ : ConsignTotal) ∈ buildConsignTotalsFromRows
        (rowsC3 ++ itemsC3.map (fun i =>
          (⟨"c1", i.typeId, i.quantity * (-1)⟩ : ConsignMovementRowLite))) :=
  applyConsignDeltas_consistent_with_rebuild rowsC3 "c1" itemsC3 (-1) (Or.inr rfl)
    (by decide) (by decide) ⟨"c1", "t1", 2⟩

/-! ### Sanitization of consign transaction items -/

theorem firstKeysAux_nodup : ∀ (l : List String) (acc : List String), acc.Nodup →
    (l.foldl (fun acc t => if t ∈ acc then acc else acc ++ [t]) acc).Nodup
  | [], _, h => h
  | t :: ts, acc, h => by
    rw [List.foldl_cons]
    apply firstKeysAux_nodup ts
    by_cases ht : t ∈ acc
    · rw [if_pos ht]
      exact h
    · rw [if_neg ht, List.nodup_append]
      refine ⟨h, List.nodup_singleton t, ?_⟩
      intro a ha hat
      rw [List.mem_singleton] at hat
      subst hat
      exact ht ha

theorem firstKeysAux_mem : ∀ (l : List String) (acc : List String) (a : String),
    (a ∈ l.foldl (fun acc t => if t ∈ acc then acc else acc ++ [t]) acc ↔ a ∈ acc ∨ a ∈ l)
  | [], acc, a => by simp
  | t :: ts, acc, a => by
    rw [List.foldl_cons, firstKeysAux_mem ts]
    by_cases ht : t ∈ acc
    · rw [if_pos ht]
      constructor
      · rintro (h | h)
        · exact Or.inl h
        · exact Or.inr (List.mem_cons_of_mem _ h)
      · rintro (h | h)
        · exact Or.inl h
        · rcases List.mem_cons.mp h with rfl | h
          · exact Or.inl ht
          · exact Or.inr h
    · rw [if_neg ht]
      simp only [List.mem_append, List.mem_singleton, List.mem_cons]
      tauto

theorem sanitizedKeys_nodup (items : List ConsignItemRaw) : (sanitizedKeys items).Nodup :=
  firstKeysAux_nodup _ [] List.nodup_nil

theorem mem_sanitizedKeys (items : List ConsignItemRaw) (t : String) :
    t ∈ sanitizedKeys items ↔ ∃ i ∈ items.filter keptItem, (jsTrim i.typeId) = t := by
  rw [sanitizedKeys, firstKeys, firstKeysAux_mem]
  simp only [List.not_mem_nil, false_or, List.mem_map]

theorem firstKeys_append_singleton (l : List String) (t : String) :
    firstKeys (l ++ [t]) = if t ∈ firstKeys l then firstKeys l else firstKeys l ++ [t] := by
  rw [firstKeys, firstKeys, List.foldl_append, List.foldl_cons, List.foldl_nil]

theorem mapGet_keyMap (keys : List String) (f : String → ℤ) (t : String) :
    mapGet (keys.map (fun s => (s, f s))) t = if t ∈ keys then some (f t) else none := by
  induction keys with
  | nil => simp [mapGet]
  | cons s rest ih =>
    rw [List.map_cons, mapGet]
    by_cases hs : s = t
    · subst hs
      rw [if_pos rfl, if_pos (List.mem_cons_self s rest)]
    · rw [if_neg hs, ih]
      by_cases ht : t ∈ rest
      · simp [ht, hs, List.mem_cons, Ne.symm hs]
      · simp [ht, hs, List.mem_cons, Ne.symm hs]

theorem mapSet_keyMap_mem (keys : List String) (f : String → ℤ) (t : String) (v : ℤ)
    (hnd : keys.Nodup) (ht : t ∈ keys) :
    mapSet (keys.map (fun s => (s, f s))) t v
      = keys.map (fun s => (s, if s = t then v else f s)) := by
  induction keys with
  | nil => cases ht
  | cons s rest ih =>
    rw [List.nodup_cons] at hnd
    obtain ⟨hsr, hrest⟩ := hnd
    rw [List.map_cons, List.map_cons, mapSet]
    by_cases hs : s = t
    · subst hs
      rw [if_pos rfl, if_pos rfl]
      congr 1
      apply List.map_congr_left
      intro x hx
      rw [if_neg (fun (h : x = s) => hsr (h ▸ hx))]
    · rw [if_neg hs]
      have ht' : t ∈ rest := by
        rcases List.mem_cons.mp ht with h | h
        · exact absurd h.symm hs
        · exact h
      rw [ih hrest ht']
      congr 1
      rw [if_neg hs]

theorem mapSet_keyMap_notmem (keys : List String) (f : String → ℤ) (t : String) (v : ℤ)
    (ht : t ∉ keys) :
    mapSet (keys.map (fun s => (s, f s))) t v
      = (keys ++ [t]).map (fun s => (s, if s = t then v else f s)) := by
  induction keys with
  | nil => simp [mapSet]
  | cons s rest ih =>
    have hs : ¬(s = t) := fun h => ht (by rw [← h]; exact List.mem_cons_self s rest)
    have ht' : t ∉ rest := fun h => ht (List.mem_cons_of_mem _ h)
    rw [List.map_cons, mapSet, if_neg hs, List.cons_append, List.map_cons, ih ht']
    congr 1
    rw [if_neg hs]

theorem keptItem_iff (i : ConsignItemRaw) :
    keptItem i = true ↔ ((jsTrim i.typeId) ≠ "" ∧ 0 < (⌊i.quantity⌋ : ℤ)) := by
  rw [keptItem]
  simp

theorem sanitizeStep_eq (acc : List (String × ℤ)) (i : ConsignItemRaw) :
    sanitizeStep acc i =
      if keptItem i = true
      then mapSet acc (jsTrim i.typeId) ((mapGet acc (jsTrim i.typeId)).getD 0 + ⌊i.quantity⌋)
      else acc := by
  rw [sanitizeStep]
  by_cases h1 : (jsTrim i.typeId) = ""
  · rw [if_pos h1, if_neg (by simp [keptItem_iff, h1])]
  · rw [if_neg h1]
    by_cases h2 : (⌊i.quantity⌋ : ℤ) ≤ 0
    · rw [if_pos h2, if_neg (by simp [keptItem_iff, h1]; omega)]
    · rw [if_neg h2, if_pos (by rw [keptItem_iff]; exact ⟨h1, by omega⟩)]

theorem sanitizedKeys_append (P : List ConsignItemRaw) (i : ConsignItemRaw) :
    sanitizedKeys (P ++ [i]) =
      if keptItem i = true then
        (if (jsTrim i.typeId) ∈ sanitizedKeys P then sanitizedKeys P
         else sanitizedKeys P ++ [(jsTrim i.typeId)])
      else sanitizedKeys P := by
  simp only [sanitizedKeys]
  rw [List.filter_append]
  by_cases hk : keptItem i = true
  · rw [if_pos hk]
    have h1 : List.filter keptItem [i] = [i] := by simp [hk]
    rw [h1, List.map_append, List.map_cons, List.map_nil, firstKeys_append_singleton]
  · rw [if_neg hk]
    have h1 : List.filter keptItem [i] = [] := by simp [hk]
    rw [h1, List.append_nil]

theorem sanitizedTotal_append (P : List ConsignItemRaw) (i : ConsignItemRaw) (t : String) :
    sanitizedTotal (P ++ [i]) t =
      sanitizedTotal P t +
        (if keptItem i = true ∧ (jsTrim i.typeId) = t then (⌊i.quantity⌋ : ℤ) else 0) := by
  simp only [sanitizedTotal]
  rw [List.filter_append]
  by_cases hk : keptItem i = true
  · have h1 : List.filter keptItem [i] = [i] := by simp [hk]
    rw [h1, List.filter_append]
    by_cases ht : (jsTrim i.typeId) = t
    · have h2 : List.filter (fun x => decide ((jsTrim x.typeId) = t)) [i] = [i] := by simp [ht]
      rw [h2, List.map_append, List.sum_append, if_pos ⟨hk, ht⟩]
      simp
    · have h2 : List.filter (fun x => decide ((jsTrim x.typeId) = t)) [i] = [] := by simp [ht]
      rw [h2, List.append_nil, if_neg (fun h => ht h.2), add_zero]
  · have h1 : List.filter keptItem [i] = [] := by simp [hk]
    rw [h1, List.append_nil, if_neg (fun h => hk h.1), add_zero]

theorem sanitizedTotal_of_notmem (P : List ConsignItemRaw) (t : String)
    (h : t ∉ sanitizedKeys P) : sanitizedTotal P t = 0 := by
  rw [sanitizedTotal]
  have he : (P.filter keptItem).filter (fun i => decide ((jsTrim i.typeId) = t)) = [] := by
    rw [List.filter_eq_nil_iff]
    intro i hi hit
    exact h ((mem_sanitizedKeys P t).mpr ⟨i, hi, of_decide_eq_true hit⟩)
  rw [he]
  rfl

theorem sanitizeStep_assoc (P : List ConsignItemRaw) (i : ConsignItemRaw) :
    sanitizeStep (sanitizeAssoc P) i = sanitizeAssoc (P ++ [i]) := by
  rw [sanitizeStep_eq]
  by_cases hk : keptItem i = true
  · rw [if_pos hk, sanitizeAssoc, sanitizeAssoc, mapGet_keyMap]
    by_cases ht : (jsTrim i.typeId) ∈ sanitizedKeys P
    · rw [if_pos ht, Option.getD_some,
        mapSet_keyMap_mem _ _ _ _ (sanitizedKeys_nodup P) ht,
        sanitizedKeys_append P i, if_pos hk, if_pos ht]
      apply List.map_congr_left
      intro s hs
      rw [sanitizedTotal_append]
      by_cases hst : s = (jsTrim i.typeId)
      · rw [if_pos hst, if_pos ⟨hk, hst.symm⟩, hst]
      · rw [if_neg hst, if_neg (fun h => hst h.2.symm), add_zero]
    · rw [if_neg ht, Option.getD_none,
        mapSet_keyMap_notmem _ _ _ _ ht,
        sanitizedKeys_append P i, if_pos hk, if_neg ht]
      apply List.map_congr_left
      intro s hs
      rw [sanitizedTotal_append]
      by_cases hst : s = (jsTrim i.typeId)
      · rw [if_pos hst, if_pos ⟨hk, hst.symm⟩]
        subst hst
        rw [sanitizedTotal_of_notmem P _ ht, zero_add]
      · rw [if_neg hst, if_neg (fun h => hst h.2.symm), add_zero]
  · rw [if_neg hk, sanitizeAssoc, sanitizeAssoc,
      sanitizedKeys_append P i, if_neg hk]
    apply List.map_congr_left
    intro s hs
    rw [sanitizedTotal_append, if_neg (fun h => hk h.1), add_zero]

theorem sanitize_foldl_assoc : ∀ (l : List ConsignItemRaw) (P : List ConsignItemRaw),
    l.foldl sanitizeStep (sanitizeAssoc P) = sanitizeAssoc (P ++ l)
  | [], P => by rw [List.foldl_nil, List.append_nil]
  | i :: l, P => by
    rw [List.foldl_cons, sanitizeStep_assoc, sanitize_foldl_assoc l (P ++ [i]),
      List.append_assoc, List.singleton_append]

/-- C7: sanitizeConsignItems discards entries with blank trimmed type
identifiers or non-positive floored quantities and merges the survivors
by trimmed identifier, summing floored quantities and keeping the
first-occurrence order of the surviving identifiers. -/
theorem sanitizeConsignItems_eq_spec (items : List ConsignItemRaw) :
    sanitizeConsignItems items = sanitizeConsignItemsSpec items := by
  have h0 : sanitizeAssoc ([] : List ConsignItemRaw) = [] := by
    simp [sanitizeAssoc, sanitizedKeys, firstKeys]
  have h := sanitize_foldl_assoc items []
  rw [h0, List.nil_append] at h
  rw [sanitizeConsignItems, h, sanitizeAssoc, sanitizeConsignItemsSpec, List.map_map]
  rfl

/-! ### Deposit transactions and order creation -/

/-- C2: a return transaction in which some sanitized item's quantity
exceeds the current outstanding balance of its (client, deposit-type)
pair is rejected whole: no remote write is issued and the result is the
over-return error, so the local totals are left untouched. -/
theorem returnConsigns_over_return_rejected (totals : List ConsignTotal)
    (payload : ConsignTransactionPayload)
    (hclient : (jsTrim payload.clientId) ≠ "")
    (hover : ∃ item ∈ sanitizeConsignItems payload.items,
      outstandingFor totals (jsTrim payload.clientId) item.typeId < item.quantity) :
    returnConsigns totals payload =
      ([], Except.error "Quantite retournee superieure aux consignes du client.") := by
  obtain ⟨item, hmem, hlt⟩ := hover
  have hsan : sanitizeConsignItems payload.items ≠ [] := List.ne_nil_of_mem hmem
  simp only [returnConsigns, recordConsignMovements]
  rw [if_neg hclient, if_neg hsan,
    if_pos ⟨trivial, List.any_eq_true.mpr ⟨item, hmem, decide_eq_true hlt⟩⟩]

theorem returnConsigns_over_return_rejected_witness :
    returnConsigns totalsC2 payloadC2 =
      ([], Except.error "Quantite retournee superieure aux consignes du client.") :=
  returnConsigns_over_return_rejected totalsC2 payloadC2 (by decide)
    ⟨⟨"t1", 3⟩, by decide, by decide⟩

theorem buildOrderItemsPayload_missing (items : List CheeseItem) (orderId : String) :
    ∀ (entries : List NewOrderEntry),
      (∃ e ∈ entries, items.find? (fun c => decide (c.id = e.itemId)) = none) →
      buildOrderItemsPayload items orderId entries = Except.error "Produit introuvable"
  | [], h => by
    obtain ⟨e, he, _⟩ := h
    cases he
  | entry :: rest, h => by
    cases hf : items.find? (fun c => decide (c.id = entry.itemId)) with
    | none => simp [buildOrderItemsPayload, hf]
    | some it =>
      obtain ⟨e, he, hnone⟩ := h
      rcases List.mem_cons.mp he with rfl | hrest
      · rw [hf] at hnone
        cases hnone
      · have hrec := buildOrderItemsPayload_missing items orderId rest ⟨e, hrest, hnone⟩
        simp [buildOrderItemsPayload, hf, hrec]

/-- C1 counterexample: with an empty catalog, an order referencing a
missing product makes addOrder throw the product-not-found error, yet the
trace of issued remote writes is not empty — the order header insert has
already been issued, contradicting the claim that the operation fails
before any remote write. -/
theorem addOrder_counterexample :
    (∃ e ∈ payloadC1.entries,
      ([] : List CheeseItem).find? (fun c => decide (c.id = e.itemId)) = none) ∧
    (addOrder [] [] payloadC1 "order-1" "2024-01-01" []).2 = Except.error "Produit introuvable" ∧
    (addOrder [] [] payloadC1 "order-1" "2024-01-01" []).1 ≠ [] := by
  refine ⟨⟨{ itemId := "missing-product", quantity := 1 }, List.mem_cons_self _ _, rfl⟩, rfl, ?_⟩
  exact List.cons_ne_nil _ _

/-- C1 (amended): when some entry references a product absent from the
current catalog, addOrder fails with the product-not-found error after
the order header insert but before the line-items insert: the returned
trace holds exactly the header write, no line-item rows are written and
no order is added locally (the error result carries no new state). -/
theorem addOrder_missing_product_after_header (items : List CheeseItem) (orders : List Order)
    (payload : NewOrder) (genOrderId genCreatedAt : String) (genItemIds : List String)
    (hne : payload.entries ≠ [])
    (hmiss : ∃ e ∈ payload.entries, items.find? (fun c => decide (c.id = e.itemId)) = none) :
    addOrder items orders payload genOrderId genCreatedAt genItemIds =
      ([RemoteWrite.insertOrderHeader payload.clientId payload.customerName payload.contact
          payload.notes OrderStatus.nouvelle],
        Except.error "Produit introuvable") := by
  simp only [addOrder]
  rw [if_neg hne, buildOrderItemsPayload_missing items genOrderId payload.entries hmiss]

theorem addOrder_missing_product_after_header_witness :
    addOrder [] [] payloadC1 "order-2" "2024-01-02" [] =
      ([RemoteWrite.insertOrderHeader "c1" "Alice" "" "" OrderStatus.nouvelle],
        Except.error "Produit introuvable") :=
  addOrder_missing_product_after_header [] [] payloadC1 "order-2" "2024-01-02" []
    (by decide)
    ⟨{ itemId := "missing-product", quantity := 1 }, List.mem_cons_self _ _, rfl⟩

/-! ### Financial calculator -/

theorem foldl_add_sum {γ : Type} (f : γ → ℚ) (l : List γ) (a : ℚ) :
    l.foldl (fun s e => s + f e) a = a + (l.map f).sum := by
  induction l generalizing a with
  | nil => simp
  | cons x xs ih => simp [ih, add_assoc]

/-- C6: computeOrderFinancials returns the sum of quantity times unit
price as product total, the flat per-line surcharge times the line count
as transport fee, their sum as grand total, and is invariant under any
permutation of the entries. -/
theorem computeOrderFinancials_spec (o o' : Order) (hperm : o.entries.Perm o'.entries) :
    (computeOrderFinancials o).productTotal
        = (o.entries.map (fun e => e.quantity * e.unitPrice)).sum ∧
    (computeOrderFinancials o).transportFee
        = (o.entries.length : ℚ) * TRANSPORT_FEE_PER_PRODUCT ∧
    (computeOrderFinancials o).grandTotal
        = (computeOrderFinancials o).productTotal + (computeOrderFinancials o).transportFee ∧
    computeOrderFinancials o = computeOrderFinancials o' := by
  have hp : ∀ x : Order, (computeOrderFinancials x).productTotal
      = (x.entries.map (fun e => e.quantity * e.unitPrice)).sum := by
    intro x
    show x.entries.foldl (fun sum entry => sum + entry.quantity * entry.unitPrice) 0 = _
    simpa using foldl_add_sum (fun e : OrderEntry => e.quantity * e.unitPrice) x.entries 0
  have hpt : (computeOrderFinancials o).productTotal = (computeOrderFinancials o').productTotal := by
    rw [hp, hp]
    exact (hperm.map (fun e => e.quantity * e.unitPrice)).sum_eq
  have htf : (computeOrderFinancials o).transportFee = (computeOrderFinancials o').transportFee := by
    show (o.entries.length : ℚ) * TRANSPORT_FEE_PER_PRODUCT
        = (o'.entries.length : ℚ) * TRANSPORT_FEE_PER_PRODUCT
    rw [hperm.length_eq]
  have hgt : (computeOrderFinancials o).grandTotal = (computeOrderFinancials o').grandTotal := by
    show (computeOrderFinancials o).productTotal + (computeOrderFinancials o).transportFee
        = (computeOrderFinancials o').productTotal + (computeOrderFinancials o').transportFee
    rw [hpt, htf]
  exact ⟨hp o, rfl, rfl, OrderFinancials.ext hpt htf hgt⟩

theorem computeOrderFinancials_spec_witness :
    computeOrderFinancials orderC6A = computeOrderFinancials orderC6B :=
  (computeOrderFinancials_spec orderC6A orderC6B
    (List.reverse_perm orderC6A.entries).symm).2.2.2

/-! ### Row mapping and payload normalization -/

/-- C10: an order line-item row with a null product reference maps to an
entry whose itemId is the row identifier, so every mapped entry has a
nonempty itemId as long as row identifiers and present product references
are nonempty. -/
theorem mapOrderEntryFromRow_itemId_fallback (row : OrderItemRow) :
    (row.item_id = none → (mapOrderEntryFromRow row).itemId = row.id) ∧
    (row.id ≠ "" → (∀ s, row.item_id = some s → s ≠ "") →
      (mapOrderEntryFromRow row).itemId ≠ "") := by
  constructor
  · intro h
    simp [mapOrderEntryFromRow, h]
  · intro hid hsome
    cases h : row.item_id with
    | none => simpa [mapOrderEntryFromRow, h] using hid
    | some s => simpa [mapOrderEntryFromRow, h] using hsome s h

theorem mapOrderEntryFromRow_itemId_fallback_witness :
    (mapOrderEntryFromRow rowC10).itemId = rowC10.id :=
  (mapOrderEntryFromRow_itemId_fallback rowC10).1 rfl

/-- C4 counterexample: a payload whose supplied multiple is not positive
is not cleared by normalizeItemPayload, contradicting the claim that the
stored multiple is null unless the supplied multiple is positive. -/
theorem normalizeItemPayload_counterexample :
    ¬(0 < payloadC4.multipleOf.getD 0) ∧ (normalizeItemPayload payloadC4).multiple_of ≠ none := by
  constructor
  · norm_num [payloadC4]
  · simp [normalizeItemPayload, payloadC4]

/-- C4 (amended): normalizeItemPayload passes the supplied multiple
through unchanged (cleared only when absent, with no positivity check),
while step is the supplied step when positive and otherwise the
per-quantity-type default, so the stored step is always positive. -/
theorem normalizeItemPayload_spec (p : NewItemPayload) :
    (normalizeItemPayload p).multiple_of = p.multipleOf ∧
    (normalizeItemPayload p).step =
      (if 0 < p.step.getD 0 then p.step.getD 0 else QUANTITY_INPUT_STEP p.quantityType) ∧
    0 < (normalizeItemPayload p).step := by
  refine ⟨rfl, ?_, ?_⟩
  · cases h : p.step with
    | none => simp [normalizeItemPayload, h]
    | some s =>
      by_cases hs : 0 < s <;> simp [normalizeItemPayload, h, hs]
  · cases h : p.step with
    | none => simpa [normalizeItemPayload, h] using QUANTITY_INPUT_STEP_pos p.quantityType
    | some s =>
      by_cases hs : 0 < s <;>
        simp [normalizeItemPayload, h, hs, QUANTITY_INPUT_STEP_pos p.quantityType]

end HappyCheese
